import Mathlib

/-!
Verification of the Estimator repository's oversize-splitting (src/estimate.js)
and sheet-nesting (src/optimize.js) cores, shallowly embedded over exact
rational arithmetic.
-/

set_option allowUnsafeReducibility true in
attribute [semireducible] Rat.mul Rat.add Rat.sub Rat.inv

namespace Estimator

/-! ## Geometry primitives shared by both modules -/

/-- Membership of the point `(px, py)` in the half-open axis-aligned rectangle
with corner `(rx, ry)`, width `rw` and height `rh`. -/
def ptIn (px py rx ry rw rh : ℚ) : Prop :=
  rx ≤ px ∧ px < rx + rw ∧ ry ≤ py ∧ py < ry + rh

instance (px py rx ry rw rh : ℚ) : Decidable (ptIn px py rx ry rw rh) := by
  unfold ptIn; infer_instance

/-- Two half-open rectangles share no point. -/
def disjRect (x1 y1 w1 h1 x2 y2 w2 h2 : ℚ) : Prop :=
  ∀ px py : ℚ, ¬ (ptIn px py x1 y1 w1 h1 ∧ ptIn px py x2 y2 w2 h2)

/-! ## estimate.js : oversize splitting -/

namespace Estimate

/-- Function `partFitsStock` from src/estimate.js. -/
def partFitsStock (partW partL stockW stockL : ℚ) : Bool :=
  decide ((partW ≤ stockW ∧ partL ≤ stockL) ∨ (partL ≤ stockW ∧ partW ≤ stockL))

/-- The max strip size chosen by `calcStripLayout` once the keep dimension is
known to fit the stock at least one way. -/
def maxStripDim (keepDim stockW stockL : ℚ) : ℚ :=
  if keepDim ≤ stockL ∧ keepDim ≤ stockW then max stockW stockL
  else if keepDim ≤ stockL then stockW
  else stockL

/-- One candidate strip size for count `c` (division by a zero count yields 0,
which fails the validity test exactly as the JS NaN/Infinity does). -/
def stripSizeFor (splitDim seamGap : ℚ) (c : ℤ) : ℚ :=
  (splitDim - ((c : ℚ) - 1) * seamGap) / (c : ℚ)

/-- Validity test used inside the kerf-refinement loop of `calcStripLayout`
(and, with the per-axis limits, of `calcGridLayout`). -/
def stripValid (splitDim seamGap maxDim : ℚ) (c : ℤ) : Prop :=
  stripSizeFor splitDim seamGap c ≤ maxDim ∧ 1 / 2 < stripSizeFor splitDim seamGap c

instance (splitDim seamGap maxDim : ℚ) (c : ℤ) :
    Decidable (stripValid splitDim seamGap maxDim c) := by
  unfold stripValid; infer_instance

/-- The bounded kerf-refinement loop (`for tries = 0; tries < 10; ...`) of
`calcStripLayout` / `calcGridLayout`: increment the count until the candidate
size is valid or the attempt cap runs out. -/
def refineCount (splitDim seamGap maxDim : ℚ) : ℕ → ℤ → ℤ
  | 0, c => c
  | t + 1, c =>
      if stripValid splitDim seamGap maxDim c then c
      else refineCount splitDim seamGap maxDim t (c + 1)

structure StripLayout where
  stripSize : ℚ
  keepDim : ℚ
  stripCount : ℤ
deriving DecidableEq

/-- Function `calcStripLayout` from src/estimate.js. -/
def calcStripLayout (splitDim keepDim stockW stockL seamGap : ℚ) : Option StripLayout :=
  if ¬ keepDim ≤ stockW ∧ ¬ keepDim ≤ stockL then none
  else
    let m := maxStripDim keepDim stockW stockL
    if m ≤ 0 then none
    else
      let c := refineCount splitDim seamGap m 10 ⌈splitDim / m⌉
      let s := stripSizeFor splitDim seamGap c
      if s ≤ 0 ∨ m < s then none
      else some ⟨s, keepDim, c⟩

structure GridLayout where
  cols : ℤ
  rows : ℤ
  total : ℤ
  pieceW : ℚ
  pieceL : ℚ
deriving DecidableEq

/-- Function `calcGridLayout` from src/estimate.js: try both stock orientations, refine
column and row counts with the same bounded loop, keep the orientation with
the fewest total pieces. -/
def calcGridLayout (partW partL stockW stockL seamGap : ℚ) : Option GridLayout :=
  [(stockW, stockL), (stockL, stockW)].foldl
    (fun best o =>
      let sw := o.1
      let sl := o.2
      let cols := refineCount partW seamGap sw 10 ⌈partW / sw⌉
      let rows := refineCount partL seamGap sl 10 ⌈partL / sl⌉
      let pieceW := stripSizeFor partW seamGap cols
      let pieceL := stripSizeFor partL seamGap rows
      if 1 / 2 < pieceW ∧ 1 / 2 < pieceL ∧ pieceW ≤ sw ∧ pieceL ≤ sl then
        match best with
        | none => some ⟨cols, rows, cols * rows, pieceW, pieceL⟩
        | some b =>
            if cols * rows < b.total then some ⟨cols, rows, cols * rows, pieceW, pieceL⟩
            else some b
      else best)
    none

structure SplitPiece where
  w : ℚ
  l : ℚ
  suffix : String
deriving DecidableEq

structure FitResult where
  fits : Bool
  pieces : List SplitPiece
  stripCount : ℤ
  warning : Option String
  noSplit : Bool
deriving DecidableEq

inductive SplitAxis
  | width
  | length
deriving DecidableEq

/-- The piece list generated by `fitOrSplit` for a chosen strip layout. -/
def stripPieces (best : StripLayout) (axis : SplitAxis) : List SplitPiece :=
  (List.range best.stripCount.toNat).map fun i =>
    let suffix := " [" ++ toString (i + 1) ++ "/" ++ toString best.stripCount ++ "]"
    match axis with
    | SplitAxis.width => ⟨best.stripSize, best.keepDim, suffix⟩
    | SplitAxis.length => ⟨best.keepDim, best.stripSize, suffix⟩

/-- The result `fitOrSplit` builds from a chosen strip layout. -/
def stripResult (best : StripLayout) (axis : SplitAxis) : FitResult :=
  ⟨false, stripPieces best axis, best.stripCount,
    some ("will be split into " ++ toString best.stripCount ++ " pieces"), false⟩

/-- The row-major grid piece list generated by `fitOrSplit` for a grid layout. -/
def gridPieces (g : GridLayout) : List SplitPiece :=
  (List.range g.rows.toNat).flatMap fun r =>
    (List.range g.cols.toNat).map fun c =>
      ⟨g.pieceW, g.pieceL,
        " [" ++ toString ((r : ℤ) * g.cols + (c : ℤ) + 1) ++ "/" ++ toString g.total ++ "]"⟩

/-- The result `fitOrSplit` builds from a chosen grid layout. -/
def gridResult (g : GridLayout) : FitResult :=
  ⟨false, gridPieces g, g.total,
    some ("will be split into " ++ toString g.cols ++ "×" ++ toString g.rows ++
      " grid (" ++ toString g.total ++ " pieces)"), false⟩

/-- Function `fitOrSplit` from src/estimate.js. -/
def fitOrSplit (partW partL stockW stockL seamGap : ℚ) (canSplit : Bool) : FitResult :=
  if partFitsStock partW partL stockW stockL then
    ⟨true, [⟨partW, partL, ""⟩], 1, none, false⟩
  else if ¬ canSplit then
    ⟨false, [⟨partW, partL, ""⟩], 1, some "exceeds stock (seams not allowed)", true⟩
  else
    match calcStripLayout partW partL stockW stockL seamGap,
        calcStripLayout partL partW stockW stockL seamGap with
    | some optA, some optB =>
        if optA.stripCount ≤ optB.stripCount then stripResult optA SplitAxis.width
        else stripResult optB SplitAxis.length
    | some optA, none => stripResult optA SplitAxis.width
    | none, some optB => stripResult optB SplitAxis.length
    | none, none =>
        match calcGridLayout partW partL stockW stockL seamGap with
        | some grid => gridResult grid
        | none =>
            ⟨false, [⟨partW, partL, ""⟩], 1, some "cannot be split to fit stock", true⟩

end Estimate

/-! ## optimize.js : sheet nesting -/

namespace Optimize

/-- A free rectangular region on a sheet (the plain `{x, y, w, h}` objects of
src/optimize.js). -/
structure FreeRect where
  x : ℚ
  y : ℚ
  w : ℚ
  h : ℚ
deriving DecidableEq

/-- The `Rectangle` class: a part to be nested. -/
structure PartRect where
  w : ℚ
  h : ℚ
  id : ℕ
  name : String
  category : String
  sourceItemId : Option String
  sourceItemName : Option String
deriving DecidableEq

/-- A placement record pushed by `Sheet.prototype.addPlacement`. -/
structure Placement where
  rect : PartRect
  x : ℚ
  y : ℚ
  w : ℚ
  h : ℚ
  rotated : Bool
deriving DecidableEq

/-- The `Sheet` class. -/
structure Sheet where
  w : ℚ
  h : ℚ
  index : ℕ
  kerf : ℚ
  placements : List Placement
  freeRects : List FreeRect
deriving DecidableEq

/-- List elements paired with their position, starting at `n` (the index
arithmetic of the JS `for` loops). -/
def idxFrom (n : ℕ) : List α → List (ℕ × α)
  | [] => []
  | a :: t => (n, a) :: idxFrom (n + 1) t

/-- Concatenation of the lists produced for each element in order (the JS
pattern of pushing several entries per iteration). -/
def concatMapL (f : α → List β) : List α → List β
  | [] => []
  | a :: t => f a ++ concatMapL f t

/-- The containment test of `removeDuplicateRects`: `r` lies inside `o`. -/
def containedIn (r o : FreeRect) : Bool :=
  decide (o.x ≤ r.x ∧ o.y ≤ r.y ∧ r.x + r.w ≤ o.x + o.w ∧ r.y + r.h ≤ o.y + o.h)

/-- Method `Sheet.prototype.removeDuplicateRects`: drop any rectangle contained in a
rectangle at another index, and any rectangle without positive extent. -/
def removeDuplicateRects (rects : List FreeRect) : List FreeRect :=
  ((idxFrom 0 rects).filter fun ir =>
      !((idxFrom 0 rects).any fun jo => jo.1 != ir.1 && containedIn ir.2 jo.2) &&
      decide (0 < ir.2.w) && decide (0 < ir.2.h)).map Prod.snd

/-- The per-free-rectangle body of `Sheet.prototype.updateFreeRects`: keep `f`
when it misses the kerf-expanded occupied rectangle, else emit the up-to-four
guillotine residual pieces. -/
def splitFree (occX occY occW occH : ℚ) (f : FreeRect) : List FreeRect :=
  if occX ≥ f.x + f.w ∨ occX + occW ≤ f.x ∨ occY ≥ f.y + f.h ∨ occY + occH ≤ f.y then
    [f]
  else
    (if occX > f.x then [⟨f.x, f.y, occX - f.x, f.h⟩] else []) ++
    (if occX + occW < f.x + f.w then
      [⟨occX + occW, f.y, f.x + f.w - (occX + occW), f.h⟩] else []) ++
    (if occY > f.y then [⟨f.x, f.y, f.w, occY - f.y⟩] else []) ++
    (if occY + occH < f.y + f.h then
      [⟨f.x, occY + occH, f.w, f.y + f.h - (occY + occH)⟩] else [])

/-- Method `Sheet.prototype.updateFreeRects`. -/
def Sheet.updateFreeRects (s : Sheet) (p : Placement) : Sheet :=
  let occW := p.w + s.kerf
  let occH := p.h + s.kerf
  let newFree := concatMapL (splitFree p.x p.y occW occH) s.freeRects
  { s with freeRects := removeDuplicateRects newFree }

/-- Method `Sheet.prototype.addPlacement`. -/
def Sheet.addPlacement (s : Sheet) (rect : PartRect) (x y : ℚ) (rotated : Bool) : Sheet :=
  let p : Placement :=
    ⟨rect, x, y, if rotated then rect.h else rect.w, if rotated then rect.w else rect.h,
      rotated⟩
  Sheet.updateFreeRects { s with placements := s.placements ++ [p] } p

/-- A candidate position returned by `findBestPosition`. -/
structure BestPos where
  x : ℚ
  y : ℚ
  rotated : Bool
deriving DecidableEq

/-- Offer one candidate with its score, keeping the previous best unless the
new score is strictly smaller. -/
def consider (acc : Option (BestPos × ℚ)) (ok : Bool) (pos : BestPos) (score : ℚ) :
    Option (BestPos × ℚ) :=
  if ok then
    match acc with
    | none => some (pos, score)
    | some pb => if score < pb.2 then some (pos, score) else some pb
  else acc

/-- The loop body of `findBestPosition`: try the normal then the rotated
orientation against one free rectangle. -/
def bestStep (rectW rectH : ℚ) (acc : Option (BestPos × ℚ)) (f : FreeRect) :
    Option (BestPos × ℚ) :=
  consider
    (consider acc (decide (rectW ≤ f.w ∧ rectH ≤ f.h)) ⟨f.x, f.y, false⟩
      (min (f.w - rectW) (f.h - rectH)))
    (decide (rectH ≤ f.w ∧ rectW ≤ f.h)) ⟨f.x, f.y, true⟩
    (min (f.w - rectH) (f.h - rectW))

/-- Method `Sheet.prototype.findBestPosition` (best short side fit; the JS `kerf`
parameter is unused by the source body). -/
def Sheet.findBestPosition (s : Sheet) (rectW rectH : ℚ) : Option BestPos :=
  (s.freeRects.foldl (bestStep rectW rectH) none).map Prod.fst

/-- Function `partFits` from src/optimize.js. -/
def partFits (partW partL sheetW sheetL : ℚ) : Bool :=
  decide ((partW ≤ sheetW ∧ partL ≤ sheetL) ∨ (partL ≤ sheetW ∧ partW ≤ sheetL))

/-- One entry of the `parts` array taken by `nestParts`. -/
structure PartSpec where
  name : String
  qty : ℕ
  w : ℚ
  l : ℚ
  category : Option String
  sourceItemId : Option String
  sourceItemName : Option String
deriving DecidableEq

/-- The expansion loop of `nestParts`: one `Rectangle` per unit of quantity,
ids assigned in push order. -/
def expandParts (parts : List PartSpec) : List PartRect :=
  (idxFrom 0 (concatMapL (fun p => List.replicate p.qty p) parts)).map fun ip =>
    ⟨ip.2.w, ip.2.l, ip.1, ip.2.name, ip.2.category.getD "panel", ip.2.sourceItemId,
      ip.2.sourceItemName⟩

/-- Strict precedence of `a` over `b` under the `nestParts` sort comparator:
larger area first, then larger longest dimension. -/
def rectLess (a b : PartRect) : Bool :=
  decide (b.w * b.h < a.w * a.h) ||
    (decide (a.w * a.h = b.w * b.h) && decide (max b.w b.h < max a.w a.h))

/-- Stable insertion of `a` into an already sorted list: `a` goes after
exactly the elements that strictly precede it. -/
def insertSorted (a : PartRect) : List PartRect → List PartRect
  | [] => [a]
  | b :: t => if rectLess b a then b :: insertSorted a t else a :: b :: t

/-- The stable sort of `nestParts` (JS `Array.prototype.sort` is stable):
area descending, ties by longest dimension descending, remaining ties in
original order. -/
def sortRects : List PartRect → List PartRect
  | [] => []
  | a :: t => insertSorted a (sortRects t)

/-- A freshly constructed `Sheet` (the `Sheet` constructor). -/
def freshSheet (w h : ℚ) (index : ℕ) (kerf : ℚ) : Sheet :=
  ⟨w, h, index, kerf, [], [⟨0, 0, w, h⟩]⟩

/-- The scan over existing sheets in `nestParts`: place on the first sheet
returning a position, leaving the others untouched. -/
def tryExistingSheets (r : PartRect) : List Sheet → Option (List Sheet)
  | [] => none
  | s :: rest =>
      match s.findBestPosition r.w r.h with
      | some pos => some (s.addPlacement r pos.x pos.y pos.rotated :: rest)
      | none => (tryExistingSheets r rest).map (fun l => s :: l)

/-- The body of the main placement loop of `nestParts` for one rectangle. -/
def placeRect (sheetW sheetL kerf : ℚ) (st : List Sheet × List PartRect)
    (r : PartRect) : List Sheet × List PartRect :=
  if partFits r.w r.h sheetW sheetL then
    match tryExistingSheets r st.1 with
    | some sheets => (sheets, st.2)
    | none =>
        let ns := freshSheet sheetW sheetL (st.1.length + 1) kerf
        match ns.findBestPosition r.w r.h with
        | some pos => (st.1 ++ [ns.addPlacement r pos.x pos.y pos.rotated], st.2)
        | none => st
  else (st.1, st.2 ++ [r])

/-- Function `nestParts` from src/optimize.js: expand, sort, then place each rectangle
on the first accepting sheet or a new one, collecting unplaceable parts. -/
def nestParts (parts : List PartSpec) (sheetW sheetL kerf : ℚ) :
    List Sheet × List PartRect :=
  (sortRects (expandParts parts)).foldl (placeRect sheetW sheetL kerf) ([], [])

/-- Total number of placements across a list of sheets. -/
def totalPlacements (sheets : List Sheet) : ℕ :=
  (sheets.map fun s => s.placements.length).sum

end Optimize

end Estimator

namespace Estimator

open Estimate Optimize

/-! ## Supporting lemmas : indexed lists and `removeDuplicateRects` -/

theorem mem_idxFrom_le {α : Type} {p : ℕ × α} :
    ∀ (l : List α) (n : ℕ), p ∈ Optimize.idxFrom n l → n ≤ p.1 := by
  intro l
  induction l with
  | nil => intro n h; simp [Optimize.idxFrom] at h
  | cons a t ih =>
      intro n h
      rcases List.mem_cons.mp h with h | h
      · subst h; exact le_refl n
      · exact le_trans (Nat.le_succ n) (ih (n + 1) h)

theorem idxFrom_pairwise {α : Type} (l : List α) (n : ℕ) :
    (Optimize.idxFrom n l).Pairwise (fun p q => p.1 < q.1) := by
  induction l generalizing n with
  | nil => exact List.Pairwise.nil
  | cons a t ih =>
      refine List.Pairwise.cons ?_ (ih (n + 1))
      intro q hq
      exact lt_of_lt_of_le (Nat.lt_succ_self n) (mem_idxFrom_le t (n + 1) hq)

theorem snd_mem_of_mem_idxFrom {α : Type} {p : ℕ × α} :
    ∀ (l : List α) (n : ℕ), p ∈ Optimize.idxFrom n l → p.2 ∈ l := by
  intro l
  induction l with
  | nil => intro n h; simp [Optimize.idxFrom] at h
  | cons a t ih =>
      intro n h
      rcases List.mem_cons.mp h with h | h
      · subst h; exact List.mem_cons_self a t
      · exact List.mem_cons_of_mem a (ih (n + 1) h)

theorem get_mem_idxFrom {α : Type} :
    ∀ (l : List α) (n i : ℕ) (hi : i < l.length),
      (n + i, l.get ⟨i, hi⟩) ∈ Optimize.idxFrom n l := by
  intro l
  induction l with
  | nil => intro n i hi; simp at hi
  | cons a t ih =>
      intro n i hi
      cases i with
      | zero => simp [Optimize.idxFrom]
      | succ k =>
          have hk : k < t.length := Nat.lt_of_succ_lt_succ hi
          have := ih (n + 1) k hk
          refine List.mem_cons_of_mem _ ?_
          have harith : n + (k + 1) = n + 1 + k := by omega
          simpa [harith] using this

theorem mem_removeDuplicateRects {r : FreeRect} {l : List FreeRect}
    (h : r ∈ removeDuplicateRects l) : r ∈ l := by
  unfold removeDuplicateRects at h
  rcases List.mem_map.mp h with ⟨p, hp, hr⟩
  subst hr
  exact snd_mem_of_mem_idxFrom l 0 (List.mem_of_mem_filter hp)

theorem containedIn_self (r : FreeRect) : containedIn r r = true := by
  simp [containedIn]

theorem removeDuplicateRects_pairwise (l : List FreeRect) :
    (removeDuplicateRects l).Pairwise
      (fun a b => containedIn a b = false ∧ containedIn b a = false) := by
  unfold removeDuplicateRects
  rw [List.pairwise_map]
  have hpw := (idxFrom_pairwise l 0).filter
    (fun ir =>
      !((Optimize.idxFrom 0 l).any fun jo => jo.1 != ir.1 && containedIn ir.2 jo.2) &&
      decide (0 < ir.2.w) && decide (0 < ir.2.h))
  refine hpw.imp_of_mem ?_
  intro a b ha hb hlt
  have hamem := List.mem_of_mem_filter ha
  have hbmem := List.mem_of_mem_filter hb
  have hapred := List.of_mem_filter ha
  have hbpred := List.of_mem_filter hb
  simp only [Bool.and_eq_true, Bool.not_eq_true', List.any_eq_false, Bool.and_eq_false_iff,
    bne_eq_false_iff_eq, decide_eq_true_eq] at hapred hbpred
  constructor
  · have hx : (b.1 != a.1) = true := bne_iff_ne.mpr (ne_of_gt hlt)
    rcases Bool.eq_false_or_eq_true (containedIn a.2 b.2) with h | h
    · exact absurd ⟨hx, h⟩ (hapred.1.1 _ hbmem)
    · exact h
  · have hx : (a.1 != b.1) = true := bne_iff_ne.mpr (ne_of_lt hlt)
    rcases Bool.eq_false_or_eq_true (containedIn b.2 a.2) with h | h
    · exact absurd ⟨hx, h⟩ (hbpred.1.1 _ hamem)
    · exact h

/-- When none of the 10 attempted counts passes the validity test, the
refinement loop exhausts its fuel and leaves the count advanced by the fuel. -/
theorem refineCount_of_never_valid (splitDim seamGap maxDim : ℚ) :
    ∀ (n : ℕ) (c : ℤ), (∀ k : ℕ, k < n → ¬ stripValid splitDim seamGap maxDim (c + k)) →
      refineCount splitDim seamGap maxDim n c = c + n := by
  intro n
  induction n with
  | zero => intro c _; simp [refineCount]
  | succ t ih =>
      intro c h
      have h0 : ¬ stripValid splitDim seamGap maxDim c := by
        have := h 0 (Nat.succ_pos t)
        simpa using this
      rw [refineCount, if_neg h0, ih (c + 1)]
      · push_cast
        ring
      · intro k hk
        have := h (k + 1) (by omega)
        have harith : c + (1 : ℤ) + (k : ℤ) = c + ((k : ℤ) + 1) := by ring
        rw [harith]
        simpa [Nat.cast_add] using this

/-! ## Claim theorems about the oversize splitter -/

/-- C4 (counterexample): on part 96×200, stock 48×96, kerf 0.125 with
splitting allowed, `fitOrSplit` does not produce the 3 strips the claim
states (the keep dimension 96 only fits the 96-inch stock axis, so strips
are limited to 48 inches and 5 of them are needed). -/
theorem claim4_counterexample :
    (fitOrSplit 96 200 48 96 (1 / 8) true).stripCount ≠ 3 := by decide

/-- C4 (amended): on part 96×200, stock 48×96, kerf 0.125 with splitting
allowed, `fitOrSplit` returns a strip split along the 200-inch axis with
exactly 5 strips, each piece 96 wide and (200 − 4·0.125)/5 = 39.9 long. -/
theorem claim4_amended :
    fitOrSplit 96 200 48 96 (1 / 8) true =
      ⟨false,
        [⟨96, 399 / 10, " [1/5]"⟩, ⟨96, 399 / 10, " [2/5]"⟩, ⟨96, 399 / 10, " [3/5]"⟩,
          ⟨96, 399 / 10, " [4/5]"⟩, ⟨96, 399 / 10, " [5/5]"⟩],
        5, some "will be split into 5 pieces", false⟩ := by decide

/-- C5 (counterexample): for split dimension 100, keep dimension 9, stock
10×10 and seam gap 50, every one of the 10 attempted strip counts fails the
validity test, yet `calcStripLayout` returns `none` (it reports failure for
this splitting option instead of returning the last computed layout). -/
theorem claim5_counterexample :
    (∀ k : ℕ, k < 10 →
        ¬ stripValid 100 50 (maxStripDim 9 10 10) (⌈(100 : ℚ) / maxStripDim 9 10 10⌉ + k)) ∧
    calcStripLayout 100 9 10 10 50 = none := by decide

/-- C5 (amended): when the kerf-refinement loop fails to converge within its
10-attempt cap, the splitter still terminates with the count advanced by 10,
and returns that last computed layout only if its strip size is positive and
at most the max strip dimension (which may still violate the loop's
0.5-minimum usable size); otherwise it returns `none` for that option. -/
theorem claim5_amended (splitDim keepDim stockW stockL seamGap : ℚ)
    (hkeep : keepDim ≤ stockW ∨ keepDim ≤ stockL)
    (hm : 0 < maxStripDim keepDim stockW stockL)
    (hnc : ∀ k : ℕ, k < 10 →
      ¬ stripValid splitDim seamGap (maxStripDim keepDim stockW stockL)
        (⌈splitDim / maxStripDim keepDim stockW stockL⌉ + k)) :
    calcStripLayout splitDim keepDim stockW stockL seamGap =
      if stripSizeFor splitDim seamGap (⌈splitDim / maxStripDim keepDim stockW stockL⌉ + 10) ≤ 0 ∨
          maxStripDim keepDim stockW stockL <
            stripSizeFor splitDim seamGap (⌈splitDim / maxStripDim keepDim stockW stockL⌉ + 10) then
        none
      else
        some ⟨stripSizeFor splitDim seamGap (⌈splitDim / maxStripDim keepDim stockW stockL⌉ + 10),
          keepDim, ⌈splitDim / maxStripDim keepDim stockW stockL⌉ + 10⟩ := by
  have hnot : ¬ (¬ keepDim ≤ stockW ∧ ¬ keepDim ≤ stockL) := by
    rcases hkeep with h | h
    · exact fun hc => hc.1 h
    · exact fun hc => hc.2 h
  rw [calcStripLayout, if_neg hnot]
  simp only [if_neg (not_le.mpr hm)]
  rw [refineCount_of_never_valid _ _ _ 10 _ hnc]
  norm_num

/-- C5 (witness for the amended theorem): the concrete non-convergent input
100 / keep 9 / stock 10×10 / gap 50 takes the `none` branch. -/
theorem claim5_witness :
    ((9 : ℚ) ≤ 10 ∨ (9 : ℚ) ≤ 10) ∧ (0 : ℚ) < maxStripDim 9 10 10 ∧
    (∀ k : ℕ, k < 10 →
      ¬ stripValid 100 50 (maxStripDim 9 10 10) (⌈(100 : ℚ) / maxStripDim 9 10 10⌉ + k)) ∧
    calcStripLayout 100 9 10 10 50 =
      (if stripSizeFor 100 50 (⌈(100 : ℚ) / maxStripDim 9 10 10⌉ + 10) ≤ 0 ∨
          maxStripDim 9 10 10 < stripSizeFor 100 50 (⌈(100 : ℚ) / maxStripDim 9 10 10⌉ + 10) then
        none
      else
        some ⟨stripSizeFor 100 50 (⌈(100 : ℚ) / maxStripDim 9 10 10⌉ + 10), 9,
          ⌈(100 : ℚ) / maxStripDim 9 10 10⌉ + 10⟩) :=
  ⟨Or.inl (by norm_num), by decide, by decide,
    claim5_amended 100 9 10 10 50 (Or.inl (by norm_num)) (by decide) (by decide)⟩

/-- The algebraic identity behind a returned strip layout: a positive strip
size forces a nonzero count, and then `c·s + (c−1)·gap = splitDim`. -/
theorem stripSize_reconstruct (splitDim seamGap : ℚ) (c : ℤ)
    (hpos : 0 < stripSizeFor splitDim seamGap c) :
    (c : ℚ) * stripSizeFor splitDim seamGap c + ((c : ℚ) - 1) * seamGap = splitDim := by
  have hne : (c : ℚ) ≠ 0 := by
    intro h0
    rw [stripSizeFor, h0, div_zero] at hpos
    exact lt_irrefl 0 hpos
  rw [stripSizeFor]
  field_simp

/-- C6: every non-null strip layout reconstructs the split dimension exactly,
`N·s + (N−1)·gap = splitDim` in rational arithmetic, and its strip size is
bounded by the max strip dimension derived from the keep dimension and the
stock rectangle. -/
theorem claim6_strip_reconstruction (splitDim keepDim stockW stockL seamGap : ℚ)
    (r : StripLayout)
    (h : calcStripLayout splitDim keepDim stockW stockL seamGap = some r) :
    (r.stripCount : ℚ) * r.stripSize + ((r.stripCount : ℚ) - 1) * seamGap = splitDim ∧
    r.stripSize ≤ maxStripDim keepDim stockW stockL := by
  simp only [calcStripLayout] at h
  split_ifs at h with h1 h2 h3
  have hr := (Option.some.inj h).symm
  subst hr
  push_neg at h3
  exact ⟨stripSize_reconstruct _ _ _ h3.1, h3.2⟩

/-- C6 (witness): the layout for split dimension 200, keep 96, stock 48×96,
gap 0.125 is non-null and satisfies the reconstruction identity. -/
theorem claim6_witness :
    calcStripLayout 200 96 48 96 (1 / 8) = some ⟨399 / 10, 96, 5⟩ ∧
    (((5 : ℤ) : ℚ) * (399 / 10) + (((5 : ℤ) : ℚ) - 1) * (1 / 8) = 200 ∧
      (399 / 10 : ℚ) ≤ maxStripDim 96 48 96) :=
  ⟨by decide,
    claim6_strip_reconstruction 200 96 48 96 (1 / 8) ⟨399 / 10, 96, 5⟩ (by decide)⟩

/-- C7: when a part is oversized and both 1-D strip options succeed,
`fitOrSplit` takes the option with the smaller strip count, preferring the
width-axis split on ties. -/
theorem claim7_prefer_fewer_strips (partW partL stockW stockL seamGap : ℚ)
    (a b : StripLayout)
    (hfit : partFitsStock partW partL stockW stockL = false)
    (ha : calcStripLayout partW partL stockW stockL seamGap = some a)
    (hb : calcStripLayout partL partW stockW stockL seamGap = some b) :
    (fitOrSplit partW partL stockW stockL seamGap true).stripCount =
      min a.stripCount b.stripCount ∧
    (a.stripCount ≤ b.stripCount →
      fitOrSplit partW partL stockW stockL seamGap true = stripResult a SplitAxis.width) ∧
    (b.stripCount < a.stripCount →
      fitOrSplit partW partL stockW stockL seamGap true = stripResult b SplitAxis.length) := by
  rw [fitOrSplit]
  rw [hfit, ha, hb]
  simp only [Bool.false_eq_true, if_false, not_true, Decidable.not_not]
  rcases le_or_lt a.stripCount b.stripCount with hle | hlt
  · rw [if_pos hle]
    refine ⟨(min_eq_left hle).symm, fun _ => rfl, fun hlt2 => absurd hle (not_le.mpr hlt2)⟩
  · rw [if_neg (not_le.mpr hlt)]
    exact ⟨(min_eq_right (le_of_lt hlt)).symm,
      fun hle2 => absurd hle2 (not_le.mpr hlt), fun _ => rfl⟩

/-- C7 (witness): part 90×80 on stock 48×96 with gap 0 is oversized, both
strip options succeed with count 2, and the tie goes to the width split. -/
theorem claim7_witness :
    partFitsStock 90 80 48 96 = false ∧
    calcStripLayout 90 80 48 96 0 = some ⟨45, 80, 2⟩ ∧
    calcStripLayout 80 90 48 96 0 = some ⟨40, 90, 2⟩ ∧
    ((fitOrSplit 90 80 48 96 0 true).stripCount =
        min (StripLayout.mk 45 80 2).stripCount (StripLayout.mk 40 90 2).stripCount ∧
      ((StripLayout.mk 45 80 2).stripCount ≤ (StripLayout.mk 40 90 2).stripCount →
        fitOrSplit 90 80 48 96 0 true = stripResult ⟨45, 80, 2⟩ SplitAxis.width) ∧
      ((StripLayout.mk 40 90 2).stripCount < (StripLayout.mk 45 80 2).stripCount →
        fitOrSplit 90 80 48 96 0 true = stripResult ⟨40, 90, 2⟩ SplitAxis.length)) :=
  ⟨by decide, by decide, by decide,
    claim7_prefer_fewer_strips 90 80 48 96 0 ⟨45, 80, 2⟩ ⟨40, 90, 2⟩ (by decide) (by decide)
      (by decide)⟩

/-! ## Claim theorems about the free-rectangle bookkeeping -/

/-- C3 (counterexample): after the very first placement update (a 2×2 part at
the origin of an empty 10×10 sheet with kerf 0) the two remaining free
rectangles overlap: the point (3,3) lies in both. So the free rectangles are
not pairwise non-overlapping. -/
theorem claim3_counterexample :
    ((freshSheet 10 10 1 0).addPlacement ⟨2, 2, 0, "r", "panel", none, none⟩ 0 0
        false).freeRects = [⟨2, 0, 8, 10⟩, ⟨0, 2, 10, 8⟩] ∧
    ptIn 3 3 2 0 8 10 ∧ ptIn 3 3 0 2 10 8 := by decide

/-- C3 (amended): after every placement update (`updateFreeRects` followed by
`removeDuplicateRects`), no free rectangle on the sheet is contained in
another one; pairwise non-overlap, however, does not hold. -/
theorem claim3_amended (s : Optimize.Sheet) (p : Optimize.Placement) :
    ((s.updateFreeRects p).freeRects).Pairwise
      (fun a b => containedIn a b = false ∧ containedIn b a = false) := by
  simp only [Optimize.Sheet.updateFreeRects]
  exact removeDuplicateRects_pairwise _

/-- C9: if a list holds two identical rectangles at distinct indices, each is
judged contained in the other, so no copy of that rectangle survives
`removeDuplicateRects`; on the concrete input of two unit squares at the
origin the output is empty, so the union of the output covers strictly less
than the union of the input (which covers the point (1/2, 1/2)). -/
theorem claim9_duplicates_removed :
    (∀ (l : List FreeRect) (i j : ℕ) (hi : i < l.length) (hj : j < l.length),
      i ≠ j → l.get ⟨i, hi⟩ = l.get ⟨j, hj⟩ →
        ∀ r ∈ removeDuplicateRects l, r ≠ l.get ⟨i, hi⟩) ∧
    (removeDuplicateRects [⟨0, 0, 1, 1⟩, ⟨0, 0, 1, 1⟩] = [] ∧
      ptIn (1 / 2) (1 / 2) 0 0 1 1) := by
  constructor
  · intro l i j hi hj hne heq r hr hcontra
    unfold removeDuplicateRects at hr
    rcases List.mem_map.mp hr with ⟨p, hp, hsnd⟩
    have hpmem := List.mem_of_mem_filter hp
    have hppred := List.of_mem_filter hp
    simp only [Bool.and_eq_true, Bool.not_eq_true', List.any_eq_false, Bool.and_eq_false_iff,
      bne_eq_false_iff_eq, decide_eq_true_eq] at hppred
    obtain ⟨m, hm, hmne, hmval⟩ :
        ∃ (m : ℕ) (hm : m < l.length), m ≠ p.1 ∧ l.get ⟨m, hm⟩ = l.get ⟨i, hi⟩ := by
      by_cases hk : p.1 = i
      · exact ⟨j, hj, by omega, heq.symm⟩
      · exact ⟨i, hi, fun hmi => hk hmi.symm, rfl⟩
    have hmmem : ((m, l.get ⟨m, hm⟩) : ℕ × FreeRect) ∈ Optimize.idxFrom 0 l := by
      have := get_mem_idxFrom l 0 m hm
      simpa using this
    have hy : containedIn p.2 (l.get ⟨m, hm⟩) = true := by
      rw [hsnd, hcontra, ← hmval]
      exact containedIn_self _
    have hx : (((m, l.get ⟨m, hm⟩) : ℕ × FreeRect).1 != p.1) = true := bne_iff_ne.mpr hmne
    exact hppred.1.1 _ hmmem ⟨hx, hy⟩
  · decide

/-- C9 (witness): instantiating the duplicate-removal theorem on the concrete
two-copy list. -/
theorem claim9_witness :
    (0 : ℕ) ≠ 1 ∧
    ([⟨0, 0, 1, 1⟩, ⟨0, 0, 1, 1⟩] : List FreeRect).get ⟨0, by decide⟩ =
      ([⟨0, 0, 1, 1⟩, ⟨0, 0, 1, 1⟩] : List FreeRect).get ⟨1, by decide⟩ ∧
    ∀ r ∈ removeDuplicateRects [⟨0, 0, 1, 1⟩, ⟨0, 0, 1, 1⟩],
      r ≠ ([⟨0, 0, 1, 1⟩, ⟨0, 0, 1, 1⟩] : List FreeRect).get ⟨0, by decide⟩ :=
  ⟨by decide, by decide,
    claim9_duplicates_removed.1 [⟨0, 0, 1, 1⟩, ⟨0, 0, 1, 1⟩] 0 1 (by decide) (by decide)
      (by decide) (by decide)⟩

/-! ## Placement accounting (claims C2 and C10) -/

theorem consider_ne_none_of_ok (acc : Option (BestPos × ℚ)) (pos : BestPos) (score : ℚ)
    {ok : Bool} (hok : ok = true) : consider acc ok pos score ≠ none := by
  subst hok
  cases acc with
  | none => simp [consider]
  | some pb =>
      simp only [consider, if_true]
      split_ifs <;> simp

theorem consider_ne_none_of_acc (acc : Option (BestPos × ℚ)) (ok : Bool) (pos : BestPos)
    (score : ℚ) (h : acc ≠ none) : consider acc ok pos score ≠ none := by
  cases acc with
  | none => exact absurd rfl h
  | some pb =>
      cases ok with
      | false => simp [consider]
      | true =>
          simp only [consider, if_true]
          split_ifs <;> simp

/-- On a fresh sheet, whose only free rectangle is the whole sheet, a part
passing the raw-fit check always receives a position. -/
theorem fresh_findBestPosition (sheetW sheetL kerf : ℚ) (idx : ℕ) (w h : ℚ)
    (hfit : partFits w h sheetW sheetL = true) :
    (freshSheet sheetW sheetL idx kerf).findBestPosition w h ≠ none := by
  have hb : bestStep w h none ⟨0, 0, sheetW, sheetL⟩ ≠ none := by
    rcases of_decide_eq_true hfit with h1 | h1
    · refine consider_ne_none_of_acc _ _ _ _ ?_
      exact consider_ne_none_of_ok _ _ _ (decide_eq_true h1)
    · exact consider_ne_none_of_ok _ _ _ (decide_eq_true h1)
  rw [Sheet.findBestPosition]
  have hred : (freshSheet sheetW sheetL idx kerf).freeRects.foldl (bestStep w h) none =
      bestStep w h none ⟨0, 0, sheetW, sheetL⟩ := rfl
  rw [hred]
  cases hc : bestStep w h none ⟨0, 0, sheetW, sheetL⟩ with
  | none => exact absurd hc hb
  | some pb => simp

theorem placements_addPlacement (s : Optimize.Sheet) (rect : PartRect) (x y : ℚ)
    (rot : Bool) :
    (s.addPlacement rect x y rot).placements = s.placements ++
      [⟨rect, x, y, if rot then rect.h else rect.w, if rot then rect.w else rect.h, rot⟩] :=
  rfl

theorem totalPlacements_cons (s : Optimize.Sheet) (rest : List Optimize.Sheet) :
    totalPlacements (s :: rest) = s.placements.length + totalPlacements rest := by
  simp [totalPlacements]

theorem totalPlacements_append_single (l : List Optimize.Sheet) (s : Optimize.Sheet) :
    totalPlacements (l ++ [s]) = totalPlacements l + s.placements.length := by
  simp [totalPlacements]

theorem tryExistingSheets_totalPlacements (r : PartRect) :
    ∀ (sheets sheets2 : List Optimize.Sheet), tryExistingSheets r sheets = some sheets2 →
      totalPlacements sheets2 = totalPlacements sheets + 1 := by
  intro sheets
  induction sheets with
  | nil => intro s2 hcon; simp [tryExistingSheets] at hcon
  | cons s rest ih =>
      intro s2 h
      rw [tryExistingSheets] at h
      cases hf : s.findBestPosition r.w r.h with
      | some pos =>
          rw [hf] at h
          have hs2 := (Option.some.inj h).symm
          subst hs2
          rw [totalPlacements_cons, totalPlacements_cons, placements_addPlacement]
          simp
          omega
      | none =>
          rw [hf] at h
          cases ht : tryExistingSheets r rest with
          | none => rw [ht] at h; simp at h
          | some l2 =>
              rw [ht] at h
              simp only [Option.map_some] at h
              have hs2 := (Option.some.inj h).symm
              subst hs2
              rw [totalPlacements_cons, totalPlacements_cons, ih l2 ht]
              omega

theorem placeRect_accounting (sheetW sheetL kerf : ℚ) (st : List Optimize.Sheet × List PartRect)
    (r : PartRect) :
    totalPlacements (placeRect sheetW sheetL kerf st r).1 +
        (placeRect sheetW sheetL kerf st r).2.length =
      totalPlacements st.1 + st.2.length + 1 := by
  rw [placeRect]
  by_cases hfit : partFits r.w r.h sheetW sheetL = true
  · rw [if_pos hfit]
    cases ht : tryExistingSheets r st.1 with
    | some sheets2 =>
        simp only []
        rw [tryExistingSheets_totalPlacements r st.1 sheets2 ht]
        omega
    | none =>
        simp only []
        cases hp : (freshSheet sheetW sheetL (st.1.length + 1) kerf).findBestPosition r.w r.h with
        | some pos =>
            simp only []
            rw [totalPlacements_append_single, placements_addPlacement]
            simp [freshSheet]
            omega
        | none => exact absurd hp (fresh_findBestPosition sheetW sheetL kerf _ r.w r.h hfit)
  · rw [if_neg hfit]
    simp
    omega

theorem foldl_accounting (sheetW sheetL kerf : ℚ) :
    ∀ (l : List PartRect) (st : List Optimize.Sheet × List PartRect),
      totalPlacements (l.foldl (placeRect sheetW sheetL kerf) st).1 +
          (l.foldl (placeRect sheetW sheetL kerf) st).2.length =
        totalPlacements st.1 + st.2.length + l.length := by
  intro l
  induction l with
  | nil => intro st; simp
  | cons r t ih =>
      intro st
      rw [List.foldl_cons, ih (placeRect sheetW sheetL kerf st r), placeRect_accounting]
      simp
      omega

theorem insertSorted_length (a : PartRect) :
    ∀ l : List PartRect, (insertSorted a l).length = l.length + 1 := by
  intro l
  induction l with
  | nil => rfl
  | cons b t ih =>
      rw [insertSorted]
      split_ifs
      · simp [ih]
      · simp

theorem sortRects_length : ∀ l : List PartRect, (sortRects l).length = l.length := by
  intro l
  induction l with
  | nil => rfl
  | cons a t ih => rw [sortRects, insertSorted_length, ih]; rfl

/-- C2: a part that passes the raw-fit check always receives a position on a
fresh sheet, and consequently every expanded rectangle in a `nestParts` run
is accounted for: it ends up either as a placement on some sheet or in the
unplaced list — the silent-drop branch is unreachable. -/
theorem claim2_no_silent_drop :
    (∀ (sheetW sheetL kerf w h : ℚ) (idx : ℕ), partFits w h sheetW sheetL = true →
        (freshSheet sheetW sheetL idx kerf).findBestPosition w h ≠ none) ∧
    (∀ (parts : List PartSpec) (sheetW sheetL kerf : ℚ),
        totalPlacements (nestParts parts sheetW sheetL kerf).1 +
            (nestParts parts sheetW sheetL kerf).2.length =
          (expandParts parts).length) := by
  constructor
  · exact fun sheetW sheetL kerf w h idx hfit =>
      fresh_findBestPosition sheetW sheetL kerf idx w h hfit
  · intro parts sheetW sheetL kerf
    have hacc := foldl_accounting sheetW sheetL kerf (sortRects (expandParts parts)) ([], [])
    simpa [nestParts, totalPlacements, sortRects_length] using hacc

/-- C2 (witness): a 2×3 part fits a fresh 4×5 sheet and gets a position. -/
theorem claim2_witness :
    partFits 2 3 4 5 = true ∧ (freshSheet 4 5 1 0).findBestPosition 2 3 ≠ none :=
  ⟨by decide, claim2_no_silent_drop.1 4 5 0 2 3 1 (by decide)⟩

theorem tryExistingSheets_nonempty (r : PartRect) :
    ∀ (sheets sheets2 : List Optimize.Sheet), (∀ s ∈ sheets, s.placements ≠ []) →
      tryExistingSheets r sheets = some sheets2 → ∀ s ∈ sheets2, s.placements ≠ [] := by
  intro sheets
  induction sheets with
  | nil => intro s2 _ hcon; simp [tryExistingSheets] at hcon
  | cons s rest ih =>
      intro s2 hne h
      rw [tryExistingSheets] at h
      cases hf : s.findBestPosition r.w r.h with
      | some pos =>
          rw [hf] at h
          have hs2 := (Option.some.inj h).symm
          subst hs2
          intro t ht
          rcases List.mem_cons.mp ht with ht | ht
          · subst ht
            rw [placements_addPlacement]
            simp
          · exact hne t (List.mem_cons_of_mem s ht)
      | none =>
          rw [hf] at h
          cases hrest : tryExistingSheets r rest with
          | none => rw [hrest] at h; simp at h
          | some l2 =>
              rw [hrest] at h
              simp only [Option.map_some] at h
              have hs2 := (Option.some.inj h).symm
              subst hs2
              intro t ht
              rcases List.mem_cons.mp ht with ht | ht
              · rw [ht]; exact hne s (List.mem_cons_self s rest)
              · exact ih l2 (fun u hu => hne u (List.mem_cons_of_mem s hu)) hrest t ht

theorem placeRect_nonempty (sheetW sheetL kerf : ℚ) (st : List Optimize.Sheet × List PartRect)
    (r : PartRect) (hne : ∀ s ∈ st.1, s.placements ≠ []) :
    ∀ s ∈ (placeRect sheetW sheetL kerf st r).1, s.placements ≠ [] := by
  rw [placeRect]
  by_cases hfit : partFits r.w r.h sheetW sheetL = true
  · rw [if_pos hfit]
    cases ht : tryExistingSheets r st.1 with
    | some sheets2 =>
        simp only []
        exact tryExistingSheets_nonempty r st.1 sheets2 hne ht
    | none =>
        simp only []
        cases hp : (freshSheet sheetW sheetL (st.1.length + 1) kerf).findBestPosition r.w r.h with
        | some pos =>
            simp only []
            intro s hs
            rcases List.mem_append.mp hs with hs | hs
            · exact hne s hs
            · rcases List.mem_singleton.mp hs with rfl
              rw [placements_addPlacement]
              simp
        | none => exact hne
  · rw [if_neg hfit]
    exact hne

theorem foldl_nonempty (sheetW sheetL kerf : ℚ) :
    ∀ (l : List PartRect) (st : List Optimize.Sheet × List PartRect),
      (∀ s ∈ st.1, s.placements ≠ []) →
      ∀ s ∈ (l.foldl (placeRect sheetW sheetL kerf) st).1, s.placements ≠ [] := by
  intro l
  induction l with
  | nil => intro st h; exact h
  | cons r t ih =>
      intro st h
      rw [List.foldl_cons]
      exact ih (placeRect sheetW sheetL kerf st r) (placeRect_nonempty sheetW sheetL kerf st r h)

/-- C10: every sheet returned by `nestParts` holds at least one placement;
sheets are only appended at the moment a part is placed on them and
placements are never removed. -/
theorem claim10_no_empty_sheet (parts : List PartSpec) (sheetW sheetL kerf : ℚ) :
    ∀ s ∈ (nestParts parts sheetW sheetL kerf).1, s.placements ≠ [] := by
  rw [nestParts]
  exact foldl_nonempty sheetW sheetL kerf (sortRects (expandParts parts)) ([], [])
    (by intro s hs; simp at hs)

/-- C10 (witness): the single sheet produced by a one-part run is in the
result and holds a placement. -/
theorem claim10_witness :
    ((nestParts [⟨"c", 1, 2, 2, none, none, none⟩] 4 4 0).1.get ⟨0, by decide⟩) ∈
      (nestParts [⟨"c", 1, 2, 2, none, none, none⟩] 4 4 0).1 ∧
    ((nestParts [⟨"c", 1, 2, 2, none, none, none⟩] 4 4 0).1.get
        ⟨0, by decide⟩).placements ≠ [] :=
  ⟨List.get_mem _ _ _, claim10_no_empty_sheet [⟨"c", 1, 2, 2, none, none, none⟩] 4 4 0 _
    (List.get_mem _ _ _)⟩

/-! ## Geometric invariants of the free-rectangle tracker -/

/-- Rectangle `(x, y, w, h)` lies inside rectangle `(X, Y, W, H)`. -/
def InRect (x y w h X Y W H : ℚ) : Prop :=
  X ≤ x ∧ Y ≤ y ∧ x + w ≤ X + W ∧ y + h ≤ Y + H

theorem InRect.refl (x y w h : ℚ) : InRect x y w h x y w h :=
  ⟨le_refl _, le_refl _, le_refl _, le_refl _⟩

theorem InRect.trans {x y w h X Y W H a b c d : ℚ} (h1 : InRect x y w h X Y W H)
    (h2 : InRect X Y W H a b c d) : InRect x y w h a b c d :=
  ⟨le_trans h2.1 h1.1, le_trans h2.2.1 h1.2.1, le_trans h1.2.2.1 h2.2.2.1,
    le_trans h1.2.2.2 h2.2.2.2⟩

theorem ptIn_of_inRect {px py x y w h X Y W H : ℚ} (hin : InRect x y w h X Y W H)
    (hpt : ptIn px py x y w h) : ptIn px py X Y W H :=
  ⟨le_trans hin.1 hpt.1, lt_of_lt_of_le hpt.2.1 hin.2.2.1, le_trans hin.2.1 hpt.2.2.1,
    lt_of_lt_of_le hpt.2.2.2 hin.2.2.2⟩

theorem disjRect_mono {x1 y1 w1 h1 X1 Y1 W1 H1 x2 y2 w2 h2 X2 Y2 W2 H2 : ℚ}
    (hin1 : InRect x1 y1 w1 h1 X1 Y1 W1 H1) (hin2 : InRect x2 y2 w2 h2 X2 Y2 W2 H2)
    (hd : disjRect X1 Y1 W1 H1 X2 Y2 W2 H2) : disjRect x1 y1 w1 h1 x2 y2 w2 h2 :=
  fun px py hc => hd px py ⟨ptIn_of_inRect hin1 hc.1, ptIn_of_inRect hin2 hc.2⟩

theorem disjRect_symm {x1 y1 w1 h1 x2 y2 w2 h2 : ℚ}
    (hd : disjRect x1 y1 w1 h1 x2 y2 w2 h2) : disjRect x2 y2 w2 h2 x1 y1 w1 h1 :=
  fun px py hc => hd px py ⟨hc.2, hc.1⟩

theorem disjRect_of_sepX {x1 y1 w1 h1 x2 y2 w2 h2 : ℚ}
    (hsep : x1 + w1 ≤ x2 ∨ x2 + w2 ≤ x1) : disjRect x1 y1 w1 h1 x2 y2 w2 h2 := by
  intro px py hc
  rcases hsep with hs | hs
  · exact absurd (lt_of_lt_of_le hc.1.2.1 (le_trans hs hc.2.1)) (lt_irrefl px)
  · exact absurd (lt_of_lt_of_le hc.2.2.1 (le_trans hs hc.1.1)) (lt_irrefl px)

theorem disjRect_of_sepY {x1 y1 w1 h1 x2 y2 w2 h2 : ℚ}
    (hsep : y1 + h1 ≤ y2 ∨ y2 + h2 ≤ y1) : disjRect x1 y1 w1 h1 x2 y2 w2 h2 := by
  intro px py hc
  rcases hsep with hs | hs
  · exact absurd (lt_of_lt_of_le hc.1.2.2.2 (le_trans hs hc.2.2.2.1)) (lt_irrefl py)
  · exact absurd (lt_of_lt_of_le hc.2.2.2.2 (le_trans hs hc.1.2.2.1)) (lt_irrefl py)

theorem mem_concatMapL {α β : Type} {f : α → List β} {b : β} :
    ∀ {l : List α}, b ∈ concatMapL f l ↔ ∃ a ∈ l, b ∈ f a := by
  intro l
  induction l with
  | nil => simp [concatMapL]
  | cons a t ih => simp [concatMapL, List.mem_append, ih]

/-- Every rectangle produced by `splitFree` stays inside the free rectangle it
came from and is disjoint from the kerf-expanded occupied rectangle. -/
theorem mem_ite_singleton {c : Prop} [Decidable c] {r g : FreeRect}
    (h : g ∈ (if c then [r] else ([] : List FreeRect))) : g = r := by
  split_ifs at h
  · exact List.mem_singleton.mp h
  · exact absurd h (List.not_mem_nil g)

/-- Every rectangle produced by `splitFree` stays inside the free rectangle it
came from and is disjoint from the kerf-expanded occupied rectangle. -/
theorem splitFree_mem {occX occY occW occH : ℚ} {f g : FreeRect}
    (hg : g ∈ splitFree occX occY occW occH f) :
    InRect g.x g.y g.w g.h f.x f.y f.w f.h ∧
      disjRect g.x g.y g.w g.h occX occY occW occH := by
  unfold splitFree at hg
  by_cases hkeep : occX ≥ f.x + f.w ∨ occX + occW ≤ f.x ∨ occY ≥ f.y + f.h ∨ occY + occH ≤ f.y
  · rw [if_pos hkeep] at hg
    rcases List.mem_singleton.mp hg with rfl
    refine ⟨InRect.refl _ _ _ _, ?_⟩
    rcases hkeep with hs | hs | hs | hs
    · exact disjRect_of_sepX (Or.inl hs)
    · exact disjRect_of_sepX (Or.inr hs)
    · exact disjRect_of_sepY (Or.inl hs)
    · exact disjRect_of_sepY (Or.inr hs)
  · rw [if_neg hkeep] at hg
    push_neg at hkeep
    obtain ⟨hxlt, hxgt, hylt, hygt⟩ := hkeep
    simp only [List.mem_append] at hg
    rcases hg with ((hmem | hmem) | hmem) | hmem
    · rcases mem_ite_singleton hmem with rfl
      constructor
      · exact ⟨le_refl _, le_refl _, by simpa using le_of_lt hxlt, le_refl _⟩
      · exact disjRect_of_sepX (Or.inl (by simp))
    · rcases mem_ite_singleton hmem with rfl
      constructor
      · exact ⟨le_of_lt hxgt, le_refl _, by simp, le_refl _⟩
      · exact disjRect_of_sepX (Or.inr (by simp))
    · rcases mem_ite_singleton hmem with rfl
      constructor
      · exact ⟨le_refl _, le_refl _, le_refl _, by simpa using le_of_lt hylt⟩
      · exact disjRect_of_sepY (Or.inl (by simp))
    · rcases mem_ite_singleton hmem with rfl
      constructor
      · exact ⟨le_refl _, le_of_lt hygt, le_refl _, by simp⟩
      · exact disjRect_of_sepY (Or.inr (by simp))

/-- Every free rectangle after `updateFreeRects` comes from one of the
previous free rectangles, stays inside it, and avoids the kerf-expanded
rectangle of the new placement. -/
theorem updateFreeRects_mem {s : Optimize.Sheet} {p : Optimize.Placement} {g : FreeRect}
    (hg : g ∈ (s.updateFreeRects p).freeRects) :
    ∃ f ∈ s.freeRects, InRect g.x g.y g.w g.h f.x f.y f.w f.h ∧
      disjRect g.x g.y g.w g.h p.x p.y (p.w + s.kerf) (p.h + s.kerf) := by
  simp only [Optimize.Sheet.updateFreeRects] at hg
  have hg2 := mem_removeDuplicateRects hg
  rcases mem_concatMapL.mp hg2 with ⟨f, hf, hgf⟩
  exact ⟨f, hf, splitFree_mem hgf⟩

/-- What a position returned by `findBestPosition` guarantees: it sits at the
corner of some free rectangle that accommodates the piece in the reported
orientation. -/
def PosOkFor (rectW rectH : ℚ) (l : List FreeRect) (b : BestPos) : Prop :=
  ∃ f ∈ l, b.x = f.x ∧ b.y = f.y ∧
    (if b.rotated then rectH else rectW) ≤ f.w ∧ (if b.rotated then rectW else rectH) ≤ f.h

theorem consider_spec {P : BestPos → Prop} {acc : Option (BestPos × ℚ)} {ok : Bool}
    {pos : BestPos} {score : ℚ}
    (hacc : ∀ b sc, acc = some (b, sc) → P b) (hpos : ok = true → P pos) :
    ∀ b sc, consider acc ok pos score = some (b, sc) → P b := by
  intro b sc h
  unfold consider at h
  cases ok with
  | false => exact hacc b sc h
  | true =>
      cases acc with
      | none =>
          simp only [if_true] at h
          have := Prod.mk.injEq .. ▸ Option.some.inj h
          rw [← (Prod.mk.inj (Option.some.inj h)).1]
          exact hpos rfl
      | some pb =>
          simp only [if_true] at h
          split_ifs at h
          · rw [← (Prod.mk.inj (Option.some.inj h)).1]
            exact hpos rfl
          · exact hacc b sc (by rw [Option.some.inj h])

theorem foldl_bestStep_spec (rectW rectH : ℚ) (l0 : List FreeRect) :
    ∀ (l : List FreeRect), (∀ f ∈ l, f ∈ l0) →
      ∀ (acc : Option (BestPos × ℚ)),
        (∀ b sc, acc = some (b, sc) → PosOkFor rectW rectH l0 b) →
        ∀ b sc, l.foldl (bestStep rectW rectH) acc = some (b, sc) →
          PosOkFor rectW rectH l0 b := by
  intro l
  induction l with
  | nil => intro _ acc hacc b sc h; exact hacc b sc h
  | cons f t ih =>
      intro hsub acc hacc b sc h
      rw [List.foldl_cons] at h
      refine ih (fun g hg => hsub g (List.mem_cons_of_mem f hg)) _ ?_ b sc h
      intro b2 sc2 h2
      unfold bestStep at h2
      refine consider_spec ?_ ?_ b2 sc2 h2
      · intro b3 sc3 h3
        refine consider_spec hacc ?_ b3 sc3 h3
        intro hok
        have hc := of_decide_eq_true hok
        exact ⟨f, hsub f (List.mem_cons_self f t), rfl, rfl, by simpa using hc.1,
          by simpa using hc.2⟩
      · intro hok
        have hc := of_decide_eq_true hok
        exact ⟨f, hsub f (List.mem_cons_self f t), rfl, rfl, by simpa using hc.1,
          by simpa using hc.2⟩

theorem findBestPosition_spec {s : Optimize.Sheet} {rectW rectH : ℚ} {b : BestPos}
    (h : s.findBestPosition rectW rectH = some b) : PosOkFor rectW rectH s.freeRects b := by
  rw [Optimize.Sheet.findBestPosition] at h
  cases hres : s.freeRects.foldl (bestStep rectW rectH) none with
  | none => rw [hres] at h; simp at h
  | some pb =>
      rw [hres] at h
      have hb : pb.1 = b := Option.some.inj h
      have hspec := foldl_bestStep_spec rectW rectH s.freeRects s.freeRects
        (fun f hf => hf) none (by simp) pb.1 pb.2 (by rw [hres])
      rw [hb] at hspec
      exact hspec

/-- The running invariant of one sheet: free rectangles stay inside the
sheet, free rectangles avoid every placement's kerf-expanded rectangle,
placements stay inside the sheet, and the placements' (unexpanded) occupied
rectangles are pairwise disjoint. -/
def SheetInv (s : Optimize.Sheet) : Prop :=
  (∀ f ∈ s.freeRects, InRect f.x f.y f.w f.h 0 0 s.w s.h) ∧
  (∀ f ∈ s.freeRects, ∀ p ∈ s.placements,
    disjRect f.x f.y f.w f.h p.x p.y (p.w + s.kerf) (p.h + s.kerf)) ∧
  (∀ p ∈ s.placements, InRect p.x p.y p.w p.h 0 0 s.w s.h) ∧
  s.placements.Pairwise (fun p q => disjRect p.x p.y p.w p.h q.x q.y q.w q.h)

theorem freshSheet_inv (sheetW sheetL : ℚ) (idx : ℕ) (kerf : ℚ) :
    SheetInv (freshSheet sheetW sheetL idx kerf) := by
  refine ⟨?_, ?_, ?_, ?_⟩
  · intro f hf
    rcases List.mem_singleton.mp hf with rfl
    exact InRect.refl _ _ _ _
  · intro f _ p hp
    simp [freshSheet] at hp
  · intro p hp
    simp [freshSheet] at hp
  · simp [freshSheet]

/-- Adding a placement at a position supplied by `findBestPosition` preserves the
sheet invariant (for a nonnegative kerf). -/
theorem addPlacement_inv {s : Optimize.Sheet} {rect : PartRect} {b : BestPos}
    (hk : 0 ≤ s.kerf) (hinv : SheetInv s)
    (hpos : PosOkFor rect.w rect.h s.freeRects b) :
    SheetInv (s.addPlacement rect b.x b.y b.rotated) := by
  obtain ⟨hfree, hfp, hpl, hpw⟩ := hinv
  obtain ⟨f, hf, hbx, hby, hbw, hbh⟩ := hpos
  refine ⟨?_, ?_, ?_, ?_⟩
  · intro g hg
    have hgu : g ∈ (Optimize.Sheet.updateFreeRects
        { s with placements := s.placements ++
            [⟨rect, b.x, b.y, if b.rotated then rect.h else rect.w,
              if b.rotated then rect.w else rect.h, b.rotated⟩] }
        ⟨rect, b.x, b.y, if b.rotated then rect.h else rect.w,
          if b.rotated then rect.w else rect.h, b.rotated⟩).freeRects := hg
    obtain ⟨f0, hf0, hsub, _⟩ := updateFreeRects_mem hgu
    exact hsub.trans (hfree f0 hf0)
  · intro g hg q hq
    have hgu : g ∈ (Optimize.Sheet.updateFreeRects
        { s with placements := s.placements ++
            [⟨rect, b.x, b.y, if b.rotated then rect.h else rect.w,
              if b.rotated then rect.w else rect.h, b.rotated⟩] }
        ⟨rect, b.x, b.y, if b.rotated then rect.h else rect.w,
          if b.rotated then rect.w else rect.h, b.rotated⟩).freeRects := hg
    obtain ⟨f0, hf0, hsub, hdisj⟩ := updateFreeRects_mem hgu
    have hq2 : q ∈ s.placements ++
        [⟨rect, b.x, b.y, if b.rotated then rect.h else rect.w,
          if b.rotated then rect.w else rect.h, b.rotated⟩] := hq
    rcases List.mem_append.mp hq2 with hq3 | hq3
    · exact disjRect_mono hsub (InRect.refl _ _ _ _) (hfp f0 hf0 q hq3)
    · rcases List.mem_singleton.mp hq3 with rfl
      exact hdisj
  · intro q hq
    have hq2 : q ∈ s.placements ++
        [⟨rect, b.x, b.y, if b.rotated then rect.h else rect.w,
          if b.rotated then rect.w else rect.h, b.rotated⟩] := hq
    rcases List.mem_append.mp hq2 with hq3 | hq3
    · exact hpl q hq3
    · rcases List.mem_singleton.mp hq3 with rfl
      refine InRect.trans ?_ (hfree f hf)
      exact ⟨le_of_eq hbx.symm, le_of_eq hby.symm,
        by rw [hbx]; exact add_le_add_left hbw _,
        by rw [hby]; exact add_le_add_left hbh _⟩
  · have hgoal : (s.placements ++
        [(⟨rect, b.x, b.y, if b.rotated then rect.h else rect.w,
          if b.rotated then rect.w else rect.h, b.rotated⟩ : Optimize.Placement)]).Pairwise
        (fun p q => disjRect p.x p.y p.w p.h q.x q.y q.w q.h) := ?_
    · exact hgoal
    rw [List.pairwise_append]
    refine ⟨hpw, List.pairwise_singleton _ _, ?_⟩
    intro q hq pn hpn
    rcases List.mem_singleton.mp hpn with rfl
    have hqexp : InRect q.x q.y q.w q.h q.x q.y (q.w + s.kerf) (q.h + s.kerf) :=
      ⟨le_refl _, le_refl _, by linarith, by linarith⟩
    have hpf : InRect b.x b.y (if b.rotated then rect.h else rect.w)
        (if b.rotated then rect.w else rect.h) f.x f.y f.w f.h :=
      ⟨le_of_eq hbx.symm, le_of_eq hby.symm,
        by rw [hbx]; exact add_le_add_left hbw _,
        by rw [hby]; exact add_le_add_left hbh _⟩
    exact disjRect_symm (disjRect_mono hpf hqexp (hfp f hf q hq))

/-- The state invariant over a list of sheets built by `nestParts`. -/
def GoodSheets (sheetW sheetL kerf : ℚ) (sheets : List Optimize.Sheet) : Prop :=
  ∀ s ∈ sheets, s.w = sheetW ∧ s.h = sheetL ∧ s.kerf = kerf ∧ SheetInv s

theorem tryExistingSheets_good {r : PartRect} {sheetW sheetL kerf : ℚ} (hk : 0 ≤ kerf) :
    ∀ (sheets sheets2 : List Optimize.Sheet), GoodSheets sheetW sheetL kerf sheets →
      tryExistingSheets r sheets = some sheets2 → GoodSheets sheetW sheetL kerf sheets2 := by
  intro sheets
  induction sheets with
  | nil => intro s2 _ hcon; simp [tryExistingSheets] at hcon
  | cons s rest ih =>
      intro s2 hgood h
      rw [tryExistingSheets] at h
      cases hfp : s.findBestPosition r.w r.h with
      | some pos =>
          rw [hfp] at h
          have hs2 := (Option.some.inj h).symm
          subst hs2
          intro t ht
          rcases List.mem_cons.mp ht with ht | ht
          · obtain ⟨hw, hh, hkf, hinv⟩ := hgood s (List.mem_cons_self s rest)
            subst ht
            refine ⟨hw, hh, hkf, ?_⟩
            exact addPlacement_inv (by rw [hkf]; exact hk) hinv (findBestPosition_spec hfp)
          · exact hgood t (List.mem_cons_of_mem s ht)
      | none =>
          rw [hfp] at h
          cases hrest : tryExistingSheets r rest with
          | none => rw [hrest] at h; simp at h
          | some l2 =>
              rw [hrest] at h
              simp only [Option.map_some] at h
              have hs2 := (Option.some.inj h).symm
              subst hs2
              intro t ht
              rcases List.mem_cons.mp ht with ht | ht
              · rw [ht]; exact hgood s (List.mem_cons_self s rest)
              · exact ih l2 (fun u hu => hgood u (List.mem_cons_of_mem s hu)) hrest t ht

theorem placeRect_good {sheetW sheetL kerf : ℚ} (hk : 0 ≤ kerf)
    (st : List Optimize.Sheet × List PartRect) (r : PartRect)
    (hst : GoodSheets sheetW sheetL kerf st.1) :
    GoodSheets sheetW sheetL kerf (placeRect sheetW sheetL kerf st r).1 := by
  rw [placeRect]
  by_cases hfit : partFits r.w r.h sheetW sheetL = true
  · rw [if_pos hfit]
    cases ht : tryExistingSheets r st.1 with
    | some sheets2 =>
        simp only []
        exact tryExistingSheets_good hk st.1 sheets2 hst ht
    | none =>
        simp only []
        cases hp : (freshSheet sheetW sheetL (st.1.length + 1) kerf).findBestPosition r.w r.h with
        | some pos =>
            simp only []
            intro t ht2
            rcases List.mem_append.mp ht2 with ht3 | ht3
            · exact hst t ht3
            · rcases List.mem_singleton.mp ht3 with rfl
              refine ⟨rfl, rfl, rfl, ?_⟩
              exact addPlacement_inv hk (freshSheet_inv sheetW sheetL (st.1.length + 1) kerf)
                (findBestPosition_spec hp)
        | none => exact hst
  · rw [if_neg hfit]
    exact hst

theorem foldl_good {sheetW sheetL kerf : ℚ} (hk : 0 ≤ kerf) :
    ∀ (l : List PartRect) (st : List Optimize.Sheet × List PartRect),
      GoodSheets sheetW sheetL kerf st.1 →
      GoodSheets sheetW sheetL kerf (l.foldl (placeRect sheetW sheetL kerf) st).1 := by
  intro l
  induction l with
  | nil => intro st h; exact h
  | cons r t ih =>
      intro st h
      rw [List.foldl_cons]
      exact ih (placeRect sheetW sheetL kerf st r) (placeRect_good hk st r h)

theorem nestParts_good (parts : List PartSpec) (sheetW sheetL kerf : ℚ) (hk : 0 ≤ kerf) :
    GoodSheets sheetW sheetL kerf (nestParts parts sheetW sheetL kerf).1 := by
  rw [nestParts]
  exact foldl_good hk (sortRects (expandParts parts)) ([], [])
    (by intro s hs; simp at hs)

/-! ## Claim theorems about nesting invariants -/

/-- C8: every placement of every sheet returned by `nestParts` (on positive
parts with nonnegative kerf) lies inside the sheet bounds, with the placed,
possibly rotated, dimensions. -/
theorem claim8_placements_in_bounds (parts : List PartSpec) (sheetW sheetL kerf : ℚ)
    (_hparts : ∀ pt ∈ parts, 0 < pt.w ∧ 0 < pt.l) (hk : 0 ≤ kerf) :
    ∀ s ∈ (nestParts parts sheetW sheetL kerf).1, ∀ p ∈ s.placements,
      0 ≤ p.x ∧ 0 ≤ p.y ∧ p.x + p.w ≤ sheetW ∧ p.y + p.h ≤ sheetL := by
  intro s hs p hp
  obtain ⟨hw, hh, _, hinv⟩ := nestParts_good parts sheetW sheetL kerf hk s hs
  have hin := hinv.2.2.1 p hp
  rw [hw, hh] at hin
  exact ⟨hin.1, hin.2.1, by linarith [hin.2.2.1], by linarith [hin.2.2.2]⟩

/-- C8 (witness): a tiny concrete run satisfying the hypotheses. -/
theorem claim8_witness :
    (∀ pt ∈ ([⟨"a", 2, 1, 2, none, none, none⟩] : List PartSpec), 0 < pt.w ∧ 0 < pt.l) ∧
    (0 : ℚ) ≤ 1 ∧
    (∀ s ∈ (nestParts [⟨"a", 2, 1, 2, none, none, none⟩] 3 3 1).1, ∀ p ∈ s.placements,
      0 ≤ p.x ∧ 0 ≤ p.y ∧ p.x + p.w ≤ 3 ∧ p.y + p.h ≤ 3) :=
  ⟨by decide, by decide,
    claim8_placements_in_bounds [⟨"a", 2, 1, 2, none, none, none⟩] 3 3 1 (by decide)
      (by decide)⟩

/-- C1 (counterexample): with parts 1×3, 1×3, 2×2 on a 4×4 sheet with kerf 1
(positive dimensions, kerf ≥ 0), `nestParts` places the three parts at
(0,0,2,2), (3,0,1,3) and (0,3,3,1) on one sheet, and the kerf-expanded
rectangles of the last two placements both contain the point (3,3): the
claimed no-overlap property of occupied-plus-kerf rectangles fails. -/
theorem claim1_counterexample :
    (∀ pt ∈ ([⟨"a", 1, 1, 3, none, none, none⟩, ⟨"b", 1, 1, 3, none, none, none⟩,
        ⟨"c", 1, 2, 2, none, none, none⟩] : List PartSpec), 0 < pt.w ∧ 0 < pt.l) ∧
    (0 : ℚ) ≤ 1 ∧
    ((nestParts
        [⟨"a", 1, 1, 3, none, none, none⟩, ⟨"b", 1, 1, 3, none, none, none⟩,
          ⟨"c", 1, 2, 2, none, none, none⟩] 4 4 1).1.map
      fun s => s.placements.map fun p => (p.x, p.y, p.w, p.h)) =
      [[(0, 0, 2, 2), (3, 0, 1, 3), (0, 3, 3, 1)]] ∧
    ¬ disjRect 3 0 (1 + 1) (3 + 1) 0 3 (3 + 1) (1 + 1) :=
  ⟨by decide, by decide, by decide,
    fun hd => hd 3 3 ⟨by decide, by decide⟩⟩

/-- C1 (amended): on positive parts with kerf ≥ 0, the *unexpanded* occupied
rectangles of any two distinct placements on a sheet never intersect, and
when kerf = 0 the claim as stated (occupied-plus-kerf rectangles disjoint)
holds; for kerf > 0 the kerf margins may overlap other placements. -/
theorem claim1_amended (parts : List PartSpec) (sheetW sheetL kerf : ℚ)
    (_hparts : ∀ pt ∈ parts, 0 < pt.w ∧ 0 < pt.l) (hk : 0 ≤ kerf) :
    ∀ s ∈ (nestParts parts sheetW sheetL kerf).1,
      s.placements.Pairwise
        (fun p q => disjRect p.x p.y p.w p.h q.x q.y q.w q.h) ∧
      (kerf = 0 → s.placements.Pairwise
        (fun p q => disjRect p.x p.y (p.w + kerf) (p.h + kerf)
          q.x q.y (q.w + kerf) (q.h + kerf))) := by
  intro s hs
  obtain ⟨_, _, _, hinv⟩ := nestParts_good parts sheetW sheetL kerf hk s hs
  refine ⟨hinv.2.2.2, ?_⟩
  intro h0
  subst h0
  refine List.Pairwise.imp ?_ hinv.2.2.2
  intro p q hpq
  simpa using hpq

/-- C1 (witness for the amended theorem): a concrete run with kerf 0 where
both the unexpanded and the expanded disjointness hold. -/
theorem claim1_witness :
    (∀ pt ∈ ([⟨"b", 2, 2, 1, none, none, none⟩] : List PartSpec), 0 < pt.w ∧ 0 < pt.l) ∧
    (0 : ℚ) ≤ 0 ∧
    (∀ s ∈ (nestParts [⟨"b", 2, 2, 1, none, none, none⟩] 4 4 0).1,
      s.placements.Pairwise
        (fun p q => disjRect p.x p.y p.w p.h q.x q.y q.w q.h) ∧
      ((0 : ℚ) = 0 → s.placements.Pairwise
        (fun p q => disjRect p.x p.y (p.w + 0) (p.h + 0)
          q.x q.y (q.w + 0) (q.h + 0)))) :=
  ⟨by decide, by decide,
    claim1_amended [⟨"b", 2, 2, 1, none, none, none⟩] 4 4 0 (by decide) (by decide)⟩

end Estimator
